import Mathlib

/-!
Verification of the ECS core of the `crayon` engine: the component arenas
(`src/src/ecs/component.rs`) and the system scheduling validator
(`src/src/ecs/system.rs`), embedded shallowly in Lean.

Handle indices (`HandleIndex`, a `u32` in the source) are embedded as `Nat`;
none of the verified operations depend on 32-bit wraparound (`id as usize`
is a lossless widening).
-/

namespace Crayon

/-- Modelled from the spec: the `BitSet` leaf (`super::bitset`, not part of the
supplied sources).  Per §4.1 it offers `insert(i)`, `remove(i)`,
`contains(i)`, `union_with`, `intersect_with`, `is_empty` and an ascending,
finite iteration over set positions, with no upper bound on indices and all
operations pure.  A pure, unbounded set of naturals with those operations is
exactly `Finset ℕ`. -/
abbrev BitSet := Finset ℕ

namespace BitSet

/-- Modelled from the spec: `BitSet::new()`, the empty bitset. -/
def new : BitSet := ∅

/-- Modelled from the spec: `union_with` returns the union, pure. -/
def union_with (a b : BitSet) : BitSet := a ∪ b

/-- Modelled from the spec: `intersect_with` returns the intersection, pure. -/
def intersect_with (a b : BitSet) : BitSet := a ∩ b

/-- Modelled from the spec: `is_empty`. -/
def is_empty (a : BitSet) : Bool := a = ∅

/-- Modelled from the spec: iteration over set bit positions, ascending. -/
def iter (a : BitSet) : List ℕ := a.sort (· ≤ ·)

end BitSet

/-- A `SystemValidator` (src/src/ecs/system.rs, lines 74-90) is consulted by
`validate` only through `readables(world)` and `writables(world)`.  Against a
fixed world those are two bitsets, so a system is embedded as that pair of
masks. -/
structure Sys where
  readables : BitSet
  writables : BitSet
deriving DecidableEq

/-- The accumulation loop of `validate` (src/src/ecs/system.rs lines 97-107):
`r = r.union_with(s.readables)`, early `return false` when
`w.intersect_with(s.writables)` is non-empty, `w = w.union_with(s.writables)`,
and after the loop the result of `w.intersect_with(r).is_empty()`. -/
def validateAux (r w : BitSet) : List Sys → Bool
  | [] => (w.intersect_with r).is_empty
  | s :: rest =>
    let r' := r.union_with s.readables
    if (w.intersect_with s.writables).is_empty then
      validateAux r' (w.union_with s.writables) rest
    else
      false

/-- Embeds `validate` (src/src/ecs/system.rs lines 93-108): true iff the systems
could run at the same time safely.  The world argument is absorbed into the
`Sys` records (it only serves to evaluate `readables`/`writables`). -/
def validate (systems : List Sys) : Bool :=
  validateAux BitSet.new BitSet.new systems

/-- Union of the writable masks of a list of systems, in accumulation order. -/
def wAccum (systems : List Sys) : BitSet :=
  systems.foldl (fun w s => w.union_with s.writables) BitSet.new

/-- Union of the readable masks of a list of systems, in accumulation order. -/
def rAccum (systems : List Sys) : BitSet :=
  systems.foldl (fun r s => r.union_with s.readables) BitSet.new

/-- Two systems have disjoint write masks. -/
def WDisj (a b : Sys) : Prop := a.writables ∩ b.writables = ∅

/-- The acceptance condition in the words of the spec: processing the systems
in order, no system's writables meet the writes accumulated before it (no
early rejection), and the final accumulated writes and reads do not
intersect. -/
def specAccepts (l : List Sys) : Prop :=
  (∀ k (hk : k < l.length), (l.get ⟨k, hk⟩).writables ∩ wAccum (l.take k) = ∅) ∧
    wAccum l ∩ rAccum l = ∅

/-- A primitive capability of a system data bundle: `Fetch<T>` (shared read
access) or `FetchMut<T>` (exclusive write access), recorded by the world's
arena index of `T` (src/src/ecs/system.rs, lines 135-171). -/
inductive Capability where
  | fetch (idx : ℕ)
  | fetchMut (idx : ℕ)
deriving DecidableEq

/-- Embeds `SystemData::readables` of a single capability: `Fetch<T>` inserts
`world.index::<T>()` into a fresh mask; `FetchMut<T>` returns the fresh
mask untouched. -/
def Capability.readables : Capability → BitSet
  | .fetch i => {i}
  | .fetchMut _ => ∅

/-- Embeds `SystemData::writables` of a single capability: `FetchMut<T>` inserts
`world.index::<T>()` into a fresh mask; `Fetch<T>` returns the fresh mask
untouched. -/
def Capability.writables : Capability → BitSet
  | .fetch _ => ∅
  | .fetchMut i => {i}

/-- Embeds `readables` of a tuple bundle (the `impl_system_data` macro,
src/src/ecs/system.rs lines 173-213): starting from `BitSet::new()`, union
in the `readables` of each element in declaration order. -/
def bundleReadables (l : List Capability) : BitSet :=
  l.foldl (fun mask c => mask.union_with c.readables) BitSet.new

/-- Embeds `writables` of a tuple bundle: starting from `BitSet::new()`, union in
the `writables` of each element in declaration order. -/
def bundleWritables (l : List Capability) : BitSet :=
  l.foldl (fun mask c => mask.union_with c.writables) BitSet.new

/-- Embeds `HashMapArena<T>` (src/src/ecs/component.rs lines 66-106): a `HashMap`
from handle index to value, embedded as its lookup function. -/
structure HashMapArena (T : Type) where
  values : ℕ → Option T

namespace HashMapArena

/-- Embeds `ComponentArena::new` for the hash-map arena: an empty map. -/
def new (T : Type) : HashMapArena T := ⟨fun _ => none⟩

/-- Embeds `get`: `self.values.get(&id)`. -/
def get {T : Type} (a : HashMapArena T) (id : ℕ) : Option T := a.values id

/-- Embeds `get_mut`: `self.values.get_mut(&id)`, the same lookup through a mutable
borrow. -/
def get_mut {T : Type} (a : HashMapArena T) (id : ℕ) : Option T := a.values id

/-- Embeds `get_unchecked`: `&self.values[&id]`.  Indexing a `HashMap` with an
absent key panics, so `none` here means the call panics rather than
returning. -/
def get_unchecked {T : Type} (a : HashMapArena T) (id : ℕ) : Option T := a.values id

/-- Embeds `get_unchecked_mut`: `self.values.get_mut(&id).unwrap()`.  `unwrap` of
`None` panics, so `none` here means the call panics rather than
returning. -/
def get_unchecked_mut {T : Type} (a : HashMapArena T) (id : ℕ) : Option T := a.values id

/-- Embeds `insert`: `self.values.insert(id, v)` stores `v` at `id` and returns the
previous value, if any. -/
def insert {T : Type} (a : HashMapArena T) (id : ℕ) (v : T) : Option T × HashMapArena T :=
  (a.values id, ⟨fun j => if j = id then some v else a.values j⟩)

/-- Embeds `remove`: `self.values.remove(&id)` clears `id` and returns the previous
value, if any. -/
def remove {T : Type} (a : HashMapArena T) (id : ℕ) : Option T × HashMapArena T :=
  (a.values id, ⟨fun j => if j = id then none else a.values j⟩)

end HashMapArena

/-- Embeds `VecArena<T>` (src/src/ecs/component.rs lines 110-201): a growable
backing vector plus a presence bitset.  Each backing slot is embedded as an
`Option T`: `some v` when the slot's bytes were last written (`ptr::write`)
with `v`, `none` when the slot holds the uninitialized memory `set_len`
exposed and nothing was ever written there.  `ptr::read` is a bitwise copy:
it returns the slot's contents and leaves them in place, which is why
`remove` clears the presence bit but leaves the slot's (now stale) contents
untouched. -/
structure VecArena (T : Type) where
  mask : Finset ℕ
  values : List (Option T)

namespace VecArena

/-- Embeds `ComponentArena::new` for the vec arena: empty mask, empty vector. -/
def new (T : Type) : VecArena T := ⟨∅, []⟩

/-- Embeds `get`: if `self.mask.contains(id)` then the bounds-checked
`self.values.get(id)`, else `None`.  (`getD id none` is `none` both for an
out-of-range index and for a never-written slot; in every reachable state
the mask only covers written, in-range slots, so the two readings agree.) -/
def get {T : Type} (a : VecArena T) (id : ℕ) : Option T :=
  if id ∈ a.mask then a.values.getD id none else none

/-- Embeds `get_mut`: same check and lookup as `get`, through a mutable borrow. -/
def get_mut {T : Type} (a : VecArena T) (id : ℕ) : Option T :=
  if id ∈ a.mask then a.values.getD id none else none

/-- Embeds `get_unchecked`: `self.values.get_unchecked(id)`, a raw read of the
slot with no presence or bounds check and no possibility of a panic: it
returns whatever the slot's memory holds (`some v` for written — possibly
stale — contents, `none` for unwritten memory or an out-of-range read,
both of which are undefined behavior in the source). -/
def get_unchecked {T : Type} (a : VecArena T) (id : ℕ) : Option T :=
  a.values.getD id none

/-- Embeds `get_unchecked_mut`: `self.values.get_unchecked_mut(id)`, same raw
access as `get_unchecked`. -/
def get_unchecked_mut {T : Type} (a : VecArena T) (id : ℕ) : Option T :=
  a.values.getD id none

/-- The growth step of `insert` (src/src/ecs/component.rs lines 155-159):
when `id` is beyond the current length, `reserve` and `set_len(id + 1)`
expose `id + 1 - len` uninitialized slots at the end of the vector. -/
def grow {T : Type} (l : List (Option T)) (id : ℕ) : List (Option T) :=
  if l.length ≤ id then l ++ List.replicate (id + 1 - l.length) none else l

/-- Embeds `insert` (src/src/ecs/component.rs lines 153-173): grow the vector to
cover `id` if needed, read out the old value if the mask claims `id`
(otherwise set the mask bit), then `ptr::write` the new value into the
slot. -/
def insert {T : Type} (a : VecArena T) (id : ℕ) (v : T) : Option T × VecArena T :=
  if id ∈ a.mask then
    ((grow a.values id).getD id none, ⟨a.mask, (grow a.values id).set id (some v)⟩)
  else
    (none, ⟨Insert.insert id a.mask, (grow a.values id).set id (some v)⟩)

/-- Embeds `remove` (src/src/ecs/component.rs lines 175-184): if the mask claims
`id`, clear the bit and `ptr::read` the value out (leaving the stale bytes
in the slot); otherwise return `None` and change nothing. -/
def remove {T : Type} (a : VecArena T) (id : ℕ) : Option T × VecArena T :=
  if id ∈ a.mask then
    (a.values.getD id none, ⟨a.mask.erase id, a.values⟩)
  else
    (none, a)

/-- The slots `Drop for VecArena` reads and destructs
(src/src/ecs/component.rs lines 187-201): it walks `self.mask.iter()` and
`ptr::read`s (hence drops) exactly the yielded indices, then discards the
vector without dropping its elements (`set_len(0)`). -/
def dropTouched {T : Type} (a : VecArena T) : List ℕ :=
  BitSet.iter a.mask

/-- The states of a vec arena reachable from `new` by any sequence of
`insert` and `remove` operations. -/
inductive Reachable {T : Type} : VecArena T → Prop where
  | new : Reachable (VecArena.new T)
  | insert {a : VecArena T} (id : ℕ) (v : T) : Reachable a → Reachable (a.insert id v).2
  | remove {a : VecArena T} (id : ℕ) : Reachable a → Reachable (a.remove id).2

/-- The presence mask only claims in-range, initialized slots. -/
def Inv {T : Type} (a : VecArena T) : Prop :=
  ∀ i ∈ a.mask, (a.values.getD i none).isSome = true

end VecArena

/-- The dense arena of the destructor example, with present indices
`{2, 5, 9}` and gaps everywhere else: three inserts into a new arena. -/
def arena259 : VecArena ℕ :=
  (((((VecArena.new ℕ).insert 2 20).2).insert 5 50).2.insert 9 90).2

/-- A vec arena holding stale memory: the value 42 written at slot 0, then
removed — presence cleared, but the slot's bytes left in place. -/
def staleArena : VecArena ℕ :=
  ((((VecArena.new ℕ).insert 0 42).2).remove 0).2

theorem getD_append_left {T : Type} (l l' : List (Option T)) (j : ℕ) (h : j < l.length) :
    (l ++ l').getD j none = l.getD j none := by
  rw [List.getD_eq_getElem?_getD, List.getD_eq_getElem?_getD, List.getElem?_append_left h]

theorem getD_pad_none {T : Type} (l : List (Option T)) (k j : ℕ) (h : l.length ≤ j) :
    (l ++ List.replicate k (none : Option T)).getD j none = none := by
  rw [List.getD_eq_getElem?_getD, List.getElem?_append_right h, List.getElem?_replicate]
  split <;> simp

theorem getD_set_self {T : Type} (l : List (Option T)) (i : ℕ) (x : Option T)
    (h : i < l.length) : (l.set i x).getD i none = x := by
  rw [List.getD_eq_getElem?_getD, List.getElem?_set]
  simp [h]

theorem getD_set_ne {T : Type} (l : List (Option T)) (i j : ℕ) (x : Option T)
    (h : i ≠ j) : (l.set i x).getD j none = l.getD j none := by
  rw [List.getD_eq_getElem?_getD, List.getD_eq_getElem?_getD, List.getElem?_set_ne h]

theorem getD_len_le {T : Type} (l : List (Option T)) (j : ℕ) (h : l.length ≤ j) :
    l.getD j none = none := by
  rw [List.getD_eq_getElem?_getD, List.getElem?_len_le h]
  rfl

namespace VecArena

theorem grow_length {T : Type} (l : List (Option T)) (id : ℕ) : id < (grow l id).length := by
  unfold grow
  split
  · rw [List.length_append, List.length_replicate]
    omega
  · omega

theorem grow_getD {T : Type} (l : List (Option T)) (id j : ℕ) :
    (grow l id).getD j none = l.getD j none := by
  unfold grow
  split
  · by_cases hj : j < l.length
    · exact getD_append_left _ _ _ hj
    · rw [getD_pad_none _ _ _ (by omega), getD_len_le _ _ (by omega)]
  · rfl

theorem insert_values {T : Type} (a : VecArena T) (id : ℕ) (v : T) :
    ((a.insert id v).2).values = (grow a.values id).set id (some v) := by
  unfold insert
  by_cases hmem : id ∈ a.mask <;> simp [hmem]

theorem insert_mask {T : Type} (a : VecArena T) (id : ℕ) (v : T) :
    ((a.insert id v).2).mask = if id ∈ a.mask then a.mask else Insert.insert id a.mask := by
  unfold insert
  by_cases hmem : id ∈ a.mask <;> simp [hmem]

theorem insert_fst {T : Type} (a : VecArena T) (id : ℕ) (v : T) :
    (a.insert id v).1 = if id ∈ a.mask then (grow a.values id).getD id none else none := by
  unfold insert
  by_cases hmem : id ∈ a.mask <;> simp [hmem]

theorem insert_values_getD_self {T : Type} (a : VecArena T) (id : ℕ) (v : T) :
    ((a.insert id v).2).values.getD id none = some v := by
  rw [insert_values, getD_set_self _ _ _ (grow_length a.values id)]

theorem insert_values_getD_ne {T : Type} (a : VecArena T) (id : ℕ) (v : T) (j : ℕ)
    (h : j ≠ id) : ((a.insert id v).2).values.getD j none = a.values.getD j none := by
  rw [insert_values, getD_set_ne _ _ _ _ (Ne.symm h), grow_getD]

theorem insert_mask_mem {T : Type} (a : VecArena T) (id : ℕ) (v : T) (j : ℕ) (h : j ≠ id) :
    (j ∈ ((a.insert id v).2).mask ↔ j ∈ a.mask) := by
  rw [insert_mask]
  by_cases hmem : id ∈ a.mask <;> simp [hmem, Finset.mem_insert, h]

theorem insert_mask_mem_self {T : Type} (a : VecArena T) (id : ℕ) (v : T) :
    id ∈ ((a.insert id v).2).mask := by
  rw [insert_mask]
  by_cases hmem : id ∈ a.mask <;> simp [hmem, Finset.mem_insert]

theorem get_insert_self {T : Type} (a : VecArena T) (id : ℕ) (v : T) :
    ((a.insert id v).2).get id = some v := by
  unfold get
  rw [if_pos (insert_mask_mem_self a id v), insert_values_getD_self]

theorem insert_fst_eq_get {T : Type} (a : VecArena T) (id : ℕ) (v : T) :
    (a.insert id v).1 = a.get id := by
  rw [insert_fst]
  unfold get
  by_cases hmem : id ∈ a.mask
  · rw [if_pos hmem, if_pos hmem, grow_getD]
  · rw [if_neg hmem, if_neg hmem]

theorem remove_fst_eq_get {T : Type} (a : VecArena T) (id : ℕ) :
    (a.remove id).1 = a.get id := by
  unfold remove get
  by_cases hmem : id ∈ a.mask <;> simp [hmem]

theorem not_mem_mask_remove {T : Type} (a : VecArena T) (id : ℕ) :
    id ∉ ((a.remove id).2).mask := by
  unfold remove
  by_cases hmem : id ∈ a.mask <;> simp [hmem, Finset.mem_erase]

theorem get_remove_self {T : Type} (a : VecArena T) (id : ℕ) :
    ((a.remove id).2).get id = none := by
  unfold get
  rw [if_neg (not_mem_mask_remove a id)]

theorem get_insert_frame {T : Type} (a : VecArena T) (id : ℕ) (v : T) (j : ℕ)
    (h : j ≠ id) : ((a.insert id v).2).get j = a.get j := by
  unfold get
  by_cases hj : j ∈ a.mask
  · rw [if_pos ((insert_mask_mem a id v j h).mpr hj), if_pos hj,
      insert_values_getD_ne a id v j h]
  · rw [if_neg (fun hc => hj ((insert_mask_mem a id v j h).mp hc)), if_neg hj]

theorem get_remove_frame {T : Type} (a : VecArena T) (id : ℕ) (j : ℕ)
    (h : j ≠ id) : ((a.remove id).2).get j = a.get j := by
  unfold remove get
  by_cases hmem : id ∈ a.mask
  · simp [hmem, Finset.mem_erase, h]
  · simp [hmem]

theorem inv_new {T : Type} : Inv (VecArena.new T) := by
  intro i hi
  simp [VecArena.new] at hi

theorem inv_insert {T : Type} {a : VecArena T} (hinv : Inv a) (id : ℕ) (v : T) :
    Inv ((a.insert id v).2) := by
  intro i hi
  by_cases h : i = id
  · subst h
    rw [insert_values_getD_self]
    rfl
  · rw [insert_values_getD_ne a id v i h]
    exact hinv i ((insert_mask_mem a id v i h).mp hi)

theorem inv_remove {T : Type} {a : VecArena T} (hinv : Inv a) (id : ℕ) :
    Inv ((a.remove id).2) := by
  intro i hi
  by_cases hmem : id ∈ a.mask
  · have hval : ((a.remove id).2).values = a.values := by
      unfold remove
      simp [hmem]
    have hmask : ((a.remove id).2).mask = a.mask.erase id := by
      unfold remove
      simp [hmem]
    rw [hval]
    rw [hmask] at hi
    exact hinv i (Finset.mem_erase.mp hi).2
  · have hstate : (a.remove id).2 = a := by
      unfold remove
      simp [hmem]
    rw [hstate] at hi ⊢
    exact hinv i hi

theorem reachable_inv {T : Type} {a : VecArena T} (h : Reachable a) : Inv a := by
  induction h with
  | new => exact inv_new
  | insert id v _ ih => exact inv_insert ih id v
  | remove id _ ih => exact inv_remove ih id

end VecArena

theorem WDisj.symm {a b : Sys} (h : WDisj a b) : WDisj b a := by
  unfold WDisj at *
  rwa [Finset.inter_comm]

theorem mem_foldl_union {α : Type} (f : α → BitSet) (l : List α) (x : ℕ) :
    ∀ (init : BitSet),
      (x ∈ l.foldl (fun acc s => acc.union_with (f s)) init ↔
        x ∈ init ∨ ∃ s ∈ l, x ∈ f s) := by
  induction l with
  | nil => simp
  | cons a t ih =>
    intro init
    rw [List.foldl_cons, ih]
    simp only [BitSet.union_with, Finset.mem_union, List.mem_cons]
    constructor
    · rintro (( h | h ) | ⟨s, hs, hx⟩)
      · exact Or.inl h
      · exact Or.inr ⟨a, Or.inl rfl, h⟩
      · exact Or.inr ⟨s, Or.inr hs, hx⟩
    · rintro (h | ⟨s, (rfl | hs), hx⟩)
      · exact Or.inl (Or.inl h)
      · exact Or.inl (Or.inr hx)
      · exact Or.inr ⟨s, hs, hx⟩

theorem mem_wAccum (l : List Sys) (x : ℕ) :
    x ∈ wAccum l ↔ ∃ s ∈ l, x ∈ s.writables := by
  have h := mem_foldl_union (fun s => s.writables) l x BitSet.new
  simpa [wAccum, BitSet.new] using h

theorem mem_rAccum (l : List Sys) (x : ℕ) :
    x ∈ rAccum l ↔ ∃ s ∈ l, x ∈ s.readables := by
  have h := mem_foldl_union (fun s => s.readables) l x BitSet.new
  simpa [rAccum, BitSet.new] using h

theorem validateAux_true_iff (l : List Sys) :
    ∀ (r w : BitSet),
      (validateAux r w l = true ↔
        (l.Pairwise WDisj ∧ (∀ s ∈ l, w ∩ s.writables = ∅)) ∧
          (l.foldl (fun acc s => acc.union_with s.writables) w) ∩
            (l.foldl (fun acc s => acc.union_with s.readables) r) = ∅) := by
  induction l with
  | nil =>
    intro r w
    simp [validateAux, BitSet.is_empty, BitSet.intersect_with]
  | cons s t ih =>
    intro r w
    by_cases h : w ∩ s.writables = ∅
    · rw [show validateAux r w (s :: t) =
          validateAux (r.union_with s.readables) (w.union_with s.writables) t by
        simp [validateAux, BitSet.intersect_with, BitSet.is_empty, h]]
      rw [ih]
      simp only [List.pairwise_cons, List.mem_cons, List.foldl_cons, BitSet.union_with,
        forall_eq_or_imp]
      constructor
      · rintro ⟨⟨hp, hall⟩, hfin⟩
        refine ⟨⟨⟨fun u hu => ?_, hp⟩, h, fun u hu => ?_⟩, hfin⟩
        · have := hall u hu
          rw [Finset.union_inter_distrib_right, Finset.union_eq_empty] at this
          exact this.2
        · have := hall u hu
          rw [Finset.union_inter_distrib_right, Finset.union_eq_empty] at this
          exact this.1
      · rintro ⟨⟨⟨hd, hp⟩, _, hall⟩, hfin⟩
        refine ⟨⟨hp, fun u hu => ?_⟩, hfin⟩
        rw [Finset.union_inter_distrib_right, Finset.union_eq_empty]
        exact ⟨hall u hu, hd u hu⟩
    · rw [show validateAux r w (s :: t) = false by
        simp [validateAux, BitSet.intersect_with, BitSet.is_empty, h]]
      simp only [Bool.false_eq_true, false_iff]
      rintro ⟨⟨_, hall⟩, _⟩
      exact h (hall s (List.mem_cons_self s t))

/-- Characterization: `validate` accepts exactly the lists whose write masks are pairwise
disjoint and whose total write mask misses the total read mask. -/
theorem validate_true_iff (l : List Sys) :
    validate l = true ↔ l.Pairwise WDisj ∧ wAccum l ∩ rAccum l = ∅ := by
  rw [validate, validateAux_true_iff l BitSet.new BitSet.new]
  unfold wAccum rAccum
  constructor
  · rintro ⟨⟨hp, _⟩, hfin⟩
    exact ⟨hp, hfin⟩
  · rintro ⟨hp, hfin⟩
    exact ⟨⟨hp, fun s _ => by simp [BitSet.new]⟩, hfin⟩

theorem pairwise_WDisj_iff_noEarly (l : List Sys) :
    l.Pairwise WDisj ↔
      ∀ k (hk : k < l.length), (l.get ⟨k, hk⟩).writables ∩ wAccum (l.take k) = ∅ := by
  rw [List.pairwise_iff_get]
  constructor
  · intro h k hk
    rw [Finset.eq_empty_iff_forall_not_mem]
    intro x hx
    rw [Finset.mem_inter, mem_wAccum] at hx
    obtain ⟨hxk, s, hs, hxs⟩ := hx
    obtain ⟨i, hi⟩ := List.mem_iff_get.mp hs
    have hik : (i : ℕ) < k := lt_of_lt_of_le i.isLt (by rw [List.length_take]; exact min_le_left _ _)
    have hil : (i : ℕ) < l.length :=
      lt_of_lt_of_le i.isLt (by rw [List.length_take]; exact min_le_right _ _)
    have hget : l.get ⟨i, hil⟩ = s := by
      rw [← hi, List.get_take l hil hik]
    have hd := h ⟨i, hil⟩ ⟨k, hk⟩ hik
    rw [hget] at hd
    unfold WDisj at hd
    rw [Finset.eq_empty_iff_forall_not_mem] at hd
    exact hd x (Finset.mem_inter.mpr ⟨hxs, hxk⟩)
  · intro h i j hij
    have hj := h (j : ℕ) j.isLt
    unfold WDisj
    rw [Finset.eq_empty_iff_forall_not_mem]
    intro x hx
    rw [Finset.mem_inter] at hx
    rw [Finset.eq_empty_iff_forall_not_mem] at hj
    apply hj x
    rw [Finset.mem_inter, mem_wAccum]
    refine ⟨by simpa using hx.2, l.get i, ?_, hx.1⟩
    have hi' : (i : ℕ) < (l.take (j : ℕ)).length := by
      rw [List.length_take]
      exact lt_min hij i.isLt
    have : (l.take (j : ℕ)).get ⟨i, hi'⟩ = l.get i := by
      rw [← List.get_take l i.isLt hij]
    rw [← this]
    exact List.get_mem _ _ _

theorem wAccum_perm {l₁ l₂ : List Sys} (h : l₁.Perm l₂) : wAccum l₁ = wAccum l₂ := by
  apply Finset.ext
  intro x
  rw [mem_wAccum, mem_wAccum]
  constructor
  · rintro ⟨s, hs, hx⟩
    exact ⟨s, h.mem_iff.mp hs, hx⟩
  · rintro ⟨s, hs, hx⟩
    exact ⟨s, h.mem_iff.mpr hs, hx⟩

theorem rAccum_perm {l₁ l₂ : List Sys} (h : l₁.Perm l₂) : rAccum l₁ = rAccum l₂ := by
  apply Finset.ext
  intro x
  rw [mem_rAccum, mem_rAccum]
  constructor
  · rintro ⟨s, hs, hx⟩
    exact ⟨s, h.mem_iff.mp hs, hx⟩
  · rintro ⟨s, hs, hx⟩
    exact ⟨s, h.mem_iff.mpr hs, hx⟩

theorem bool_eq_of_iff {x y : Bool} (h : x = true ↔ y = true) : x = y := by
  cases x <;> cases y <;> simp_all

/-- C1: `validate` returns true iff, processing the systems in order with
accumulators `r` and `w` starting empty, no early rejection occurs (no
system's writables meet the writes accumulated before it) and the final
intersection `w ∩ r` is empty; moreover, with component indices X = 0,
Y = 1, Z = 2: for A (reads X, writes Y) and B (reads Y, writes Z) the batch
is rejected; for A (reads X) and B (reads X) it is accepted; for
A (writes X) and B (writes X) it is rejected. -/
theorem validate_iff_specAccepts_and_instances :
    (∀ l : List Sys, validate l = true ↔ specAccepts l) ∧
      validate [⟨{0}, {1}⟩, ⟨{1}, {2}⟩] = false ∧
      validate [⟨{0}, ∅⟩, ⟨{0}, ∅⟩] = true ∧
      validate [⟨∅, {0}⟩, ⟨∅, {0}⟩] = false := by
  refine ⟨fun l => ?_, by decide, by decide, by decide⟩
  rw [validate_true_iff]
  unfold specAccepts
  rw [pairwise_WDisj_iff_noEarly]

/-- Witness for C1: the acceptance criterion instantiated at the empty batch. -/
theorem validate_iff_specAccepts_witness :
    validate [] = true ↔ specAccepts ([] : List Sys) :=
  validate_iff_specAccepts_and_instances.1 []

/-- C2: the validator's verdict is invariant under permutation of the system
list, and for three systems it equals the conjunction of the verdicts on the
three two-element sublists. -/
theorem validate_perm_invariant_and_pairwise :
    (∀ (l₁ l₂ : List Sys), l₁.Perm l₂ → validate l₁ = validate l₂) ∧
      (∀ (a b c : Sys), validate [a, b, c] =
        (validate [a, b] && (validate [a, c] && validate [b, c]))) := by
  constructor
  · intro l₁ l₂ hp
    apply bool_eq_of_iff
    rw [validate_true_iff, validate_true_iff, wAccum_perm hp, rAccum_perm hp,
      List.Perm.pairwise_iff (fun h => WDisj.symm h) hp]
  · intro a b c
    apply bool_eq_of_iff
    rw [Bool.and_eq_true, Bool.and_eq_true, validate_true_iff, validate_true_iff,
      validate_true_iff, validate_true_iff]
    simp [wAccum, rAccum, WDisj, BitSet.new, BitSet.union_with,
      Finset.union_inter_distrib_right, Finset.inter_union_distrib_left,
      Finset.union_eq_empty]
    all_goals tauto

/-- Witness for C2: permutation invariance and the pairwise decomposition at
concrete systems. -/
theorem validate_perm_invariant_and_pairwise_witness :
    validate [Sys.mk {0} {1}, Sys.mk {1} {2}] = validate [Sys.mk {1} {2}, Sys.mk {0} {1}] ∧
      validate [Sys.mk {0} ∅, Sys.mk {1} ∅, Sys.mk {2} ∅] =
        (validate [Sys.mk {0} ∅, Sys.mk {1} ∅] &&
          (validate [Sys.mk {0} ∅, Sys.mk {2} ∅] && validate [Sys.mk {1} ∅, Sys.mk {2} ∅])) :=
  ⟨validate_perm_invariant_and_pairwise.1 _ _ (List.Perm.swap _ _ _),
    validate_perm_invariant_and_pairwise.2 _ _ _⟩

theorem mem_bundleReadables (l : List Capability) (x : ℕ) :
    x ∈ bundleReadables l ↔ ∃ c ∈ l, x ∈ c.readables := by
  have h := mem_foldl_union Capability.readables l x BitSet.new
  simpa [bundleReadables, BitSet.new] using h

theorem mem_bundleWritables (l : List Capability) (x : ℕ) :
    x ∈ bundleWritables l ↔ ∃ c ∈ l, x ∈ c.writables := by
  have h := mem_foldl_union Capability.writables l x BitSet.new
  simpa [bundleWritables, BitSet.new] using h

/-- C3: the `readables` (resp. `writables`) mask of a tuple bundle is the
union of the `readables` (resp. `writables`) of its elements, with
`Fetch<T>` contributing `{index(T)}` to reads only and `FetchMut<T>` to
writes only; in particular any ordering of the bundle
`(Fetch<A>, FetchMut<B>, Fetch<C>)` has reads `{index(A), index(C)}` and
writes `{index(B)}`. -/
theorem bundle_masks_are_elementwise_unions :
    (∀ (l : List Capability) (x : ℕ),
        (x ∈ bundleReadables l ↔ ∃ c ∈ l, x ∈ c.readables) ∧
          (x ∈ bundleWritables l ↔ ∃ c ∈ l, x ∈ c.writables)) ∧
      (∀ (a b c : ℕ) (l : List Capability),
        l.Perm [.fetch a, .fetchMut b, .fetch c] →
          bundleReadables l = {a, c} ∧ bundleWritables l = {b}) := by
  constructor
  · intro l x
    exact ⟨mem_bundleReadables l x, mem_bundleWritables l x⟩
  · intro a b c l hp
    constructor
    · apply Finset.ext
      intro x
      rw [mem_bundleReadables]
      simp only [hp.mem_iff]
      simp [Capability.readables, List.mem_cons]
    · apply Finset.ext
      intro x
      rw [mem_bundleWritables]
      simp only [hp.mem_iff]
      simp [Capability.writables, List.mem_cons]

/-- Witness for C3: the bundle `(Fetch 0, FetchMut 1, Fetch 2)` itself, and
membership of index 0 in its read mask. -/
theorem bundle_masks_witness :
    ((0 ∈ bundleReadables [.fetch 0, .fetchMut 1, .fetch 2] ↔
        ∃ c ∈ ([.fetch 0, .fetchMut 1, .fetch 2] : List Capability), 0 ∈ c.readables) ∧
      (0 ∈ bundleWritables [.fetch 0, .fetchMut 1, .fetch 2] ↔
        ∃ c ∈ ([.fetch 0, .fetchMut 1, .fetch 2] : List Capability), 0 ∈ c.writables)) ∧
      bundleReadables [.fetch 0, .fetchMut 1, .fetch 2] = {0, 2} ∧
      bundleWritables [.fetch 0, .fetchMut 1, .fetch 2] = {1} :=
  ⟨bundle_masks_are_elementwise_unions.1 _ 0,
    bundle_masks_are_elementwise_unions.2 0 1 2 _ (List.Perm.refl _)⟩

/-- C4: dropping a dense arena reads and destructs exactly the indices its
presence mask claims, each exactly once, all of them initialized slots in
any reachable state; in the `{2, 5, 9}` example only slots 2, 5 and 9 are
touched and every gap slot is left alone. -/
theorem vecArena_drop_touches_exactly_mask :
    (∀ (T : Type) (a : VecArena T),
        (∀ i, i ∈ VecArena.dropTouched a ↔ i ∈ a.mask) ∧
          (VecArena.dropTouched a).Nodup ∧
          (VecArena.Reachable a →
            ∀ i ∈ VecArena.dropTouched a, (a.values.getD i none).isSome = true)) ∧
      (∀ i, i ∈ VecArena.dropTouched arena259 ↔ i ∈ ({2, 5, 9} : Finset ℕ)) ∧
        ∀ i ∈ [0, 1, 3, 4, 6, 7, 8], i ∉ VecArena.dropTouched arena259 := by
  have hmask : arena259.mask = ({2, 5, 9} : Finset ℕ) := by decide
  refine ⟨fun T a => ⟨fun i => ?_, ?_, fun hr i hi => ?_⟩, fun i => ?_, fun i hi => ?_⟩
  · exact Finset.mem_sort (· ≤ ·)
  · exact Finset.sort_nodup (· ≤ ·) a.mask
  · exact VecArena.reachable_inv hr i ((Finset.mem_sort (· ≤ ·)).mp hi)
  · unfold VecArena.dropTouched BitSet.iter
    rw [Finset.mem_sort, hmask]
  · unfold VecArena.dropTouched BitSet.iter
    rw [Finset.mem_sort, hmask]
    fin_cases hi <;> decide

/-- Witness for C4: the destructor-touched indices of the `{2, 5, 9}` arena
are exactly its mask, none twice, and all touched slots are initialized. -/
theorem vecArena_drop_touches_witness :
    (9 ∈ VecArena.dropTouched arena259 ↔ 9 ∈ arena259.mask) ∧
      (VecArena.dropTouched arena259).Nodup ∧
      ∀ i ∈ VecArena.dropTouched arena259, (arena259.values.getD i none).isSome = true :=
  ⟨(vecArena_drop_touches_exactly_mask.1 ℕ arena259).1 9,
    (vecArena_drop_touches_exactly_mask.1 ℕ arena259).2.1,
    (vecArena_drop_touches_exactly_mask.1 ℕ arena259).2.2
      (VecArena.Reachable.insert 9 90 (VecArena.Reachable.insert 5 50
        (VecArena.Reachable.insert 2 20 VecArena.Reachable.new)))⟩

/-- C5 counterexample: after `insert(0, 42)` then `remove(0)` on a vec arena,
index 0 is absent, yet `get_unchecked(0)` and `get_unchecked_mut(0)`
silently return the stale value 42 instead of failing fast: the claim's
"for every arena kind" is false for the vec arena, whose unchecked
accessors perform no check and cannot panic. -/
theorem vecArena_get_unchecked_returns_stale :
    VecArena.get staleArena 0 = none ∧ 0 ∉ staleArena.mask ∧
      VecArena.get_unchecked staleArena 0 = some 42 ∧
      VecArena.get_unchecked_mut staleArena 0 = some 42 := by
  refine ⟨by decide, by decide, by decide, by decide⟩

/-- C5 amended: only the hash-map arena's unchecked accessors fail fast
(panic) on an absent index rather than returning a value; the vec arena's
unchecked accessors perform no presence or bounds check and can silently
return stale memory contents for an absent index. -/
theorem get_unchecked_absent_fail_fast :
    (∀ (T : Type) (a : HashMapArena T) (id : ℕ),
        a.get id = none →
          a.get_unchecked id = none ∧ a.get_unchecked_mut id = none) ∧
      VecArena.get staleArena 0 = none ∧
        VecArena.get_unchecked staleArena 0 = some 42 := by
  exact ⟨fun T a id h => ⟨h, h⟩, by decide, by decide⟩

/-- Witness for C5 (amended): the empty hash-map arena at index 3. -/
theorem get_unchecked_absent_fail_fast_witness :
    HashMapArena.get_unchecked (HashMapArena.new ℕ) 3 = none ∧
      HashMapArena.get_unchecked_mut (HashMapArena.new ℕ) 3 = none :=
  get_unchecked_absent_fail_fast.1 ℕ (HashMapArena.new ℕ) 3 rfl

/-- C6: in every state reachable from a new dense arena by any sequence of
`insert` and `remove` operations, the presence bitset contains exactly the
indices at which `get` returns a value. -/
theorem vecArena_mask_iff_get_isSome :
    ∀ (T : Type) (a : VecArena T), VecArena.Reachable a →
      ∀ i, i ∈ a.mask ↔ (VecArena.get a i).isSome = true := by
  intro T a h i
  have hinv := VecArena.reachable_inv h
  unfold VecArena.get
  by_cases hi : i ∈ a.mask
  · rw [if_pos hi]
    exact iff_of_true hi (hinv i hi)
  · rw [if_neg hi]
    exact iff_of_false hi (by simp)

/-- Witness for C6: the reachable arena `new.insert(5, 7)` at indices 5
(present) and 3 (absent). -/
theorem vecArena_mask_iff_get_isSome_witness :
    (5 ∈ (((VecArena.new ℕ).insert 5 7).2).mask ↔
        (VecArena.get (((VecArena.new ℕ).insert 5 7).2) 5).isSome = true) ∧
      (3 ∈ (((VecArena.new ℕ).insert 5 7).2).mask ↔
        (VecArena.get (((VecArena.new ℕ).insert 5 7).2) 3).isSome = true) :=
  ⟨vecArena_mask_iff_get_isSome ℕ _
      (VecArena.Reachable.insert 5 7 VecArena.Reachable.new) 5,
    vecArena_mask_iff_get_isSome ℕ _
      (VecArena.Reachable.insert 5 7 VecArena.Reachable.new) 3⟩

/-- C7: for both arena kinds, `insert(i, v)` then `get(i)` returns `v`;
`remove(i)` then `get(i)` returns nothing; `remove(i)` returns exactly what
`get(i)` saw before it (the stored value when present, nothing otherwise);
and `remove` never leaves the presence bit set. -/
theorem arena_roundtrip :
    (∀ (T : Type) (a : HashMapArena T) (i : ℕ) (v : T),
        ((a.insert i v).2).get i = some v ∧
          ((a.remove i).2).get i = none ∧
          (a.remove i).1 = a.get i) ∧
      ∀ (T : Type) (a : VecArena T) (i : ℕ) (v : T),
        ((a.insert i v).2).get i = some v ∧
          ((a.remove i).2).get i = none ∧
          (a.remove i).1 = a.get i ∧
          i ∉ ((a.remove i).2).mask := by
  constructor
  · intro T a i v
    refine ⟨?_, ?_, rfl⟩
    · simp [HashMapArena.insert, HashMapArena.get]
    · simp [HashMapArena.remove, HashMapArena.get]
  · intro T a i v
    exact ⟨VecArena.get_insert_self a i v, VecArena.get_remove_self a i,
      VecArena.remove_fst_eq_get a i, VecArena.not_mem_mask_remove a i⟩

/-- Witness for C7: both arenas at index 0, value 1. -/
theorem arena_roundtrip_witness :
    (((HashMapArena.new ℕ).insert 0 1).2.get 0 = some 1 ∧
        ((HashMapArena.new ℕ).remove 0).2.get 0 = none ∧
        ((HashMapArena.new ℕ).remove 0).1 = (HashMapArena.new ℕ).get 0) ∧
      ((VecArena.new ℕ).insert 0 1).2.get 0 = some 1 :=
  ⟨arena_roundtrip.1 ℕ (HashMapArena.new ℕ) 0 1,
    (arena_roundtrip.2 ℕ (VecArena.new ℕ) 0 1).1⟩

/-- C8: for both arena kinds, a second `insert` at the same index returns
the first value (not silently dropped) and leaves `get` at the new value;
`insert` at an index holding no value returns nothing. -/
theorem arena_overwrite :
    (∀ (T : Type) (a : HashMapArena T) (i : ℕ) (v1 v2 : T),
        (((a.insert i v1).2).insert i v2).1 = some v1 ∧
          ((((a.insert i v1).2).insert i v2).2).get i = some v2) ∧
      (∀ (T : Type) (a : HashMapArena T) (i : ℕ) (v : T),
        a.get i = none → (a.insert i v).1 = none) ∧
      (∀ (T : Type) (a : VecArena T) (i : ℕ) (v1 v2 : T),
        (((a.insert i v1).2).insert i v2).1 = some v1 ∧
          ((((a.insert i v1).2).insert i v2).2).get i = some v2) ∧
      ∀ (T : Type) (a : VecArena T) (i : ℕ) (v : T),
        VecArena.get a i = none → (a.insert i v).1 = none := by
  refine ⟨fun T a i v1 v2 => ⟨?_, ?_⟩, fun T a i v h => h, fun T a i v1 v2 => ⟨?_, ?_⟩,
    fun T a i v h => ?_⟩
  · simp [HashMapArena.insert, HashMapArena.get]
  · simp [HashMapArena.insert, HashMapArena.get]
  · rw [VecArena.insert_fst_eq_get, VecArena.get_insert_self]
  · rw [VecArena.get_insert_self]
  · rw [VecArena.insert_fst_eq_get, h]

/-- Witness for C8: overwrite at index 0 with values 1 then 2, and an
insert into an empty slot, on both arenas. -/
theorem arena_overwrite_witness :
    ((((HashMapArena.new ℕ).insert 0 1).2.insert 0 2).1 = some 1 ∧
        (((HashMapArena.new ℕ).insert 0 1).2.insert 0 2).2.get 0 = some 2) ∧
      ((HashMapArena.new ℕ).insert 0 5).1 = none ∧
      ((((VecArena.new ℕ).insert 0 1).2.insert 0 2).1 = some 1 ∧
        (((VecArena.new ℕ).insert 0 1).2.insert 0 2).2.get 0 = some 2) ∧
      ((VecArena.new ℕ).insert 0 5).1 = none :=
  ⟨arena_overwrite.1 ℕ (HashMapArena.new ℕ) 0 1 2,
    arena_overwrite.2.1 ℕ (HashMapArena.new ℕ) 0 5 rfl,
    arena_overwrite.2.2.1 ℕ (VecArena.new ℕ) 0 1 2,
    arena_overwrite.2.2.2 ℕ (VecArena.new ℕ) 0 5 (by decide)⟩

/-- C9: `get` and `get_mut` return nothing — rather than erring or reading
out of bounds — when the index is out of range of the backing storage or
not marked present, for both arena kinds (the embedded accessors are total
functions into `Option`). -/
theorem arena_get_absent_none :
    (∀ (T : Type) (a : VecArena T) (i : ℕ),
        (i ∉ a.mask ∨ a.values.length ≤ i) →
          VecArena.get a i = none ∧ VecArena.get_mut a i = none) ∧
      ∀ (T : Type) (a : HashMapArena T) (i : ℕ),
        a.get i = none → HashMapArena.get_mut a i = none := by
  constructor
  · intro T a i h
    have hval : (if i ∈ a.mask then a.values.getD i none else none) = none := by
      by_cases hi : i ∈ a.mask
      · rcases h with h | h
        · exact absurd hi h
        · rw [if_pos hi, getD_len_le _ _ h]
      · rw [if_neg hi]
    exact ⟨hval, hval⟩
  · intro T a i h
    exact h

/-- Witness for C9: the empty vec arena at index 4 (out of range and
absent) and the empty hash-map arena at index 4. -/
theorem arena_get_absent_none_witness :
    (VecArena.get (VecArena.new ℕ) 4 = none ∧
        VecArena.get_mut (VecArena.new ℕ) 4 = none) ∧
      HashMapArena.get_mut (HashMapArena.new ℕ) 4 = none :=
  ⟨arena_get_absent_none.1 ℕ (VecArena.new ℕ) 4 (Or.inl (by decide)),
    arena_get_absent_none.2 ℕ (HashMapArena.new ℕ) 4 rfl⟩

/-- C10: `insert(i, v)` and `remove(i)` leave `get(j)` unchanged at every
other index `j ≠ i`, for both arena kinds. -/
theorem arena_frame_other_indices :
    (∀ (T : Type) (a : HashMapArena T) (i : ℕ) (v : T) (j : ℕ), j ≠ i →
        ((a.insert i v).2).get j = a.get j ∧ ((a.remove i).2).get j = a.get j) ∧
      ∀ (T : Type) (a : VecArena T) (i : ℕ) (v : T) (j : ℕ), j ≠ i →
        ((a.insert i v).2).get j = a.get j ∧ ((a.remove i).2).get j = a.get j := by
  constructor
  · intro T a i v j h
    constructor <;> simp [HashMapArena.insert, HashMapArena.remove, HashMapArena.get, h]
  · intro T a i v j h
    exact ⟨VecArena.get_insert_frame a i v j h, VecArena.get_remove_frame a i j h⟩

/-- Witness for C10: inserting at 0 leaves index 3 unchanged on both
arenas. -/
theorem arena_frame_other_indices_witness :
    (((HashMapArena.new ℕ).insert 0 1).2.get 3 = (HashMapArena.new ℕ).get 3 ∧
        ((HashMapArena.new ℕ).remove 0).2.get 3 = (HashMapArena.new ℕ).get 3) ∧
      ((VecArena.new ℕ).insert 0 1).2.get 3 = (VecArena.new ℕ).get 3 ∧
        ((VecArena.new ℕ).remove 0).2.get 3 = (VecArena.new ℕ).get 3 :=
  ⟨arena_frame_other_indices.1 ℕ (HashMapArena.new ℕ) 0 1 3 (by decide),
    arena_frame_other_indices.2 ℕ (VecArena.new ℕ) 0 1 3 (by decide)⟩

end Crayon
